import Mathlib

/-!
Shallow embedding of the federated-learning core of this repository
(`src/modules/core/fl_engine.py`): the `ModelRegistry`, the FedAvg
aggregation, the DP-epsilon computation, and the round orchestration of
`FedAvgEngine.run_round` / `run_simulation`.

Modelling conventions:
* numpy weight tensors become ℚ-valued families `ℕ → ℚ` over a flattened
  index; every tensor in the engine shares one shape, so shape bookkeeping
  is not represented.
* Python floats become exact rationals `ℚ` wherever the source only adds,
  scales and compares them; the one genuinely irrational value the claims
  mention (the Gaussian-mechanism epsilon, a real-valued `sqrt`/`log`
  expression, with `float('inf')` as a possible value) is modelled in
  `EReal`.
* the process-wide random draws (`np.random.*`) and the two helper
  computations whose outputs are real-valued and unconstrained by any claim
  (`_compute_accuracy`, the mean-Euclidean-norm divergence) are abstracted
  into an `Oracle` of arbitrary functions, additionally indexed by round
  number and node position so that every random call site of a run receives
  its own unconstrained value; theorems quantify over all oracles.
* Python exceptions (IndexError on `local_weights[0]` for an empty list,
  ZeroDivisionError on `n / total_samples`) become `Option.none`.
-/

namespace FLEngine

/-- Weight tensors of `fl_engine.py` (numpy arrays of one fixed shape per
run), as ℚ-valued families over a flattened index. -/
def Weights : Type := ℕ → ℚ

/-- The `HospitalNode` dataclass. `weights` is `Optional` in the source with
default `None`, but the engine always populates it at construction. -/
structure HospitalNode where
  node_id : String
  n_samples : ℕ
  base_accuracy : ℚ
  noise_level : ℚ := 0
  cloud_provider : String := "AWS"
  region : String := "us-east-1"
  encryption_active : Bool := true
  weights : Weights
  last_loss : ℚ := 1
  rounds_participated : ℕ := 0

/-- The `FLRound` dataclass: the record of one federated round.
`privacy_epsilon` lives in `EReal` because the source stores
`float('inf')` when `sigma == 0`. -/
structure FLRound where
  round_num : ℕ
  global_accuracy : ℚ
  global_loss : ℚ
  node_accuracies : List (String × ℚ)
  weight_divergence : ℚ
  privacy_epsilon : EReal
  secure_agg_status : String := "Active"
  converged : Bool := false

/-- The `ModelVersion` dataclass (the creation timestamp is untouched by every
operation the claims mention and is omitted). -/
structure ModelVersion where
  version_id : ℤ
  weights : Weights
  accuracy : ℚ

/-- The `ModelRegistry` class: `versions` is a Python dict `int → ModelVersion`
modelled as an insertion-ordered association list with unique keys;
`best_version_id = -1` is the empty sentinel, as in the source. -/
structure ModelRegistry where
  versions : List (ℤ × ModelVersion)
  best_version_id : ℤ

/-- Python dict assignment `d[k] = v` on an association list whose keys are
unique: overwrite in place if the key is present, else append. -/
def dictInsert (l : List (ℤ × ModelVersion)) (k : ℤ) (v : ModelVersion) :
    List (ℤ × ModelVersion) :=
  match l with
  | [] => [(k, v)]
  | p :: ps => if p.1 = k then (k, v) :: ps else p :: dictInsert ps k v

/-- Python dict lookup `d[k]`, `none` standing for a `KeyError`. -/
def dictGet (l : List (ℤ × ModelVersion)) (k : ℤ) : Option ModelVersion :=
  match l with
  | [] => none
  | p :: ps => if p.1 = k then some p.2 else dictGet ps k

/-- Maximum of a list of keys (`max(self.versions.keys())`), `none` on an
empty dict. -/
def maxKey (l : List (ℤ × ModelVersion)) : Option ℤ :=
  match l with
  | [] => none
  | p :: ps => some (ps.foldl (fun acc q => max acc q.1) p.1)

/-- Model of `ModelRegistry.__init__`: empty dict, best pointer at the `-1`
sentinel. -/
def ModelRegistry.empty : ModelRegistry := ⟨[], -1⟩

/-- Model of `ModelRegistry.save_version`: store the snapshot, then move the best
pointer iff the registry was empty or the new accuracy strictly exceeds the
accuracy at the current best pointer (looked up in the already-updated
dict, exactly as the source does). An absent best key would be a `KeyError`
in Python; it is unreachable for registries built through this API and is
modelled as "condition false". -/
def ModelRegistry.save_version (reg : ModelRegistry) (version_id : ℤ)
    (w : Weights) (accuracy : ℚ) : ModelRegistry :=
  let versions' := dictInsert reg.versions version_id ⟨version_id, w, accuracy⟩
  let moveBest : Bool :=
    reg.best_version_id = -1 ||
      (match dictGet versions' reg.best_version_id with
       | some v => decide (accuracy > v.accuracy)
       | none => false)
  { versions := versions'
    best_version_id := if moveBest then version_id else reg.best_version_id }

/-- Model of `ModelRegistry.get_latest`: `None` on an empty registry, else the
version at the largest key. -/
def ModelRegistry.get_latest (reg : ModelRegistry) : Option ModelVersion :=
  match maxKey reg.versions with
  | none => none
  | some k => dictGet reg.versions k

/-- Model of `ModelRegistry.get_best`: `None` at the `-1` sentinel, else the version
at the best pointer. -/
def ModelRegistry.get_best (reg : ModelRegistry) : Option ModelVersion :=
  if reg.best_version_id = -1 then none
  else dictGet reg.versions reg.best_version_id

/-- Model of `FedAvgEngine._fedavg_aggregate`. An empty `local_weights` list raises
(`local_weights[0]`, IndexError) — `none`. Otherwise Python's `zip`
silently truncates to the shorter of the two lists; if the loop runs at
least one iteration with `total_samples == 0`, the division
`n / total_samples` raises ZeroDivisionError — `none`. The loop
`aggregated += (n / total) * w` starting from `np.zeros_like` is the sum
`Σ (n_k / N) · W_k` over the zipped pairs. -/
def fedavgAggregate (local_weights : List Weights) (sample_counts : List ℕ) :
    Option Weights :=
  match local_weights with
  | [] => none
  | _ :: _ =>
    let total : ℕ := sample_counts.sum
    match local_weights.zip sample_counts with
    | [] => some (fun _ => 0)
    | p :: ps =>
      if total = 0 then none
      else some (fun i =>
        (((p :: ps).map (fun q => ((q.2 : ℚ) / (total : ℚ)) * q.1 i)).sum))

/-- Model of `min(sample_counts)`: `none` on an empty list (Python `ValueError`). -/
def pyMin : List ℕ → Option ℕ
  | [] => none
  | x :: xs => some (xs.foldl Nat.min x)

/-- Model of `np.clip(x, lo, hi)`. -/
def clip (lo hi x : ℚ) : ℚ := min (max x lo) hi

/-- Model of `FedAvgEngine._compute_epsilon(sigma, n_samples, delta)`: `float('inf')`
when `sigma == 0`, else the analytic Gaussian-mechanism bound
`sqrt(2·ln(1.25/delta)) / sigma`. The `n_samples` argument is accepted and
ignored, exactly as in the source. -/
noncomputable def computeEpsilon (sigma : ℚ) (n_samples : ℕ) (delta : ℚ) :
    EReal :=
  if sigma = 0 then ⊤
  else ((Real.sqrt (2 * Real.log (1.25 / (delta : ℝ))) / (sigma : ℝ) : ℝ) : EReal)

/-- The stochastic and real-valued primitives of `FedAvgEngine`, abstracted
as arbitrary functions. Each field also takes the round number (and, where
the source makes one call per node, the node's position) so that every call
site of a run receives an independent, unconstrained value:
* `localTrain` — `_simulate_local_training(node, global_weights)`;
* `dpNoise` — `_add_dp_noise(weights, n_samples)`;
* `nodeAccEstimate` — the per-node `_compute_accuracy(w_local, round_num)`;
* `nodeAccDraw` — the per-node `np.random.normal(0, 0.01)` draw;
* `globalAccEstimate` — `_compute_accuracy(new_global, round_num)`;
* `divergence` — `np.mean([np.linalg.norm(w - new_global) for w in ...])`.
-/
structure Oracle where
  localTrain : ℕ → ℕ → HospitalNode → Weights → Weights
  dpNoise : ℕ → ℕ → Weights → ℕ → Weights
  nodeAccEstimate : ℕ → ℕ → Weights → ℚ
  nodeAccDraw : ℕ → ℕ → ℚ
  globalAccEstimate : ℕ → Weights → ℚ
  divergence : ℕ → List Weights → Weights → ℚ

/-- The mutable attributes of a `FedAvgEngine` instance. -/
structure EngineState where
  n_hospitals : ℕ
  dp_enabled : Bool
  dp_sigma : ℚ
  lr : ℚ
  n_layers : ℕ
  hospitals : List HospitalNode
  global_weights : Weights
  round_history : List FLRound
  registry : ModelRegistry

/-- One node's contribution inside `run_round`'s hospital loop:
`w_local = _simulate_local_training(node, global_weights)`, then DP noise
iff `dp_enabled`. -/
def localUpdate (o : Oracle) (st : EngineState) (r idx : ℕ)
    (node : HospitalNode) : Weights :=
  let w := o.localTrain r idx node st.global_weights
  if st.dp_enabled then o.dpNoise r idx w node.n_samples else w

/-- The `local_weights` list accumulated by `run_round`'s loop. -/
def roundLocals (o : Oracle) (st : EngineState) (r : ℕ) : List Weights :=
  st.hospitals.enum.map (fun p => localUpdate o st r p.1 p.2)

/-- The `sample_counts` list accumulated by `run_round`'s loop. -/
def roundCounts (st : EngineState) : List ℕ :=
  st.hospitals.map (fun n => n.n_samples)

/-- The `node_accuracies` dict accumulated by `run_round`'s loop:
`np.clip(_compute_accuracy(w_local, round_num) + normal(0, 0.01), 0.5, 0.99)`
keyed by node id. -/
def roundNodeAccs (o : Oracle) (st : EngineState) (r : ℕ) :
    List (String × ℚ) :=
  st.hospitals.enum.map (fun p =>
    (p.2.node_id,
      clip (mkRat 1 2) (mkRat 99 100)
        (o.nodeAccEstimate r p.1 (localUpdate o st r p.1 p.2) +
          o.nodeAccDraw r p.1)))

/-- The candidate global tensor `new_global` of `run_round`, before the
rollback check. -/
def roundCandidate (o : Oracle) (st : EngineState) (r : ℕ) : Option Weights :=
  fedavgAggregate (roundLocals o st r) (roundCounts st)

/-- The success path of `FedAvgEngine.run_round(round_num)`, given the
aggregated candidate `new_global` and the minimum sample count `cmin`:
divergence, candidate accuracy estimate, rollback protection, registry
save, epsilon, the `FLRound` record and the mutated engine state. The
constants are the source's `0.05` (`mkRat 1 20`), `0.01` (`mkRat 1 100`)
and `delta = 1e-5` (`mkRat 1 100000`). -/
noncomputable def runRoundWith (o : Oracle) (st : EngineState)
    (round_num : ℕ) (new_global : Weights) (cmin : ℕ) :
    FLRound × EngineState :=
  let w_div := o.divergence round_num (roundLocals o st round_num) new_global
  let cand_acc := o.globalAccEstimate round_num new_global
  -- Rollback protection: (kept weights, kept accuracy, rollback_active)
  let kept : Weights × ℚ × Bool :=
    match st.registry.get_best with
    | some prev_best =>
      if cand_acc < prev_best.accuracy - mkRat 1 20 then
        (prev_best.weights, prev_best.accuracy, true)
      else (new_global, cand_acc, false)
    | none => (new_global, cand_acc, false)
  let registry' := st.registry.save_version (round_num : ℤ) kept.1 kept.2.1
  let eps : EReal :=
    if st.dp_enabled then computeEpsilon st.dp_sigma cmin (mkRat 1 100000) else 0
  let result : FLRound :=
    { round_num := round_num
      global_accuracy := kept.2.1
      global_loss := 1 - kept.2.1
      node_accuracies := roundNodeAccs o st round_num
      weight_divergence := w_div
      privacy_epsilon := eps
      secure_agg_status :=
        if kept.2.2 then "Safe Rollback Applied" else "Rollback Strategy Active"
      converged := decide (w_div < mkRat 1 100 ∧ 10 ≤ round_num) }
  (result,
    { st with
        global_weights := kept.1
        registry := registry'
        round_history := st.round_history ++ [result] })

/-- Model of `FedAvgEngine.run_round(round_num)`: one complete round with rollback
checking. `none` is an uncaught Python exception (empty hospital list or
zero total sample count, both surfacing in `_fedavg_aggregate`). On
success, returns the `FLRound` record together with the mutated engine
state (new global weights, registry entry, appended history). -/
noncomputable def runRound (o : Oracle) (st : EngineState) (round_num : ℕ) :
    Option (FLRound × EngineState) :=
  match roundCandidate o st round_num, pyMin (roundCounts st) with
  | some new_global, some cmin => some (runRoundWith o st round_num new_global cmin)
  | _, _ => none

/-- The `for r in range(1, n_rounds + 1)` loop of `run_simulation`, with
the early-stop `if result.converged and r > 15: break`; `fuel` is the
number of loop iterations remaining, `r` the round number of the next
iteration. A round's exception (`none`) propagates. -/
noncomputable def simLoop (o : Oracle) (st : EngineState) (r fuel : ℕ) :
    Option EngineState :=
  match fuel with
  | 0 => some st
  | fuel' + 1 =>
    match runRound o st r with
    | none => none
    | some (result, st') =>
      if result.converged = true ∧ 15 < r then some st'
      else simLoop o st' (r + 1) fuel'

/-- Model of `FedAvgEngine.run_simulation(n_rounds)`: reset `round_history` to `[]`,
then run the loop from round 1. -/
noncomputable def runSimulation (o : Oracle) (st : EngineState) (n_rounds : ℕ) :
    Option EngineState :=
  simLoop o { st with round_history := [] } 1 n_rounds

/-- The oracle of _random_ draws used by `FedAvgEngine.__init__` /
`_init_hospitals`: per-index sample-size draws (`randint(150, 800)`,
encoded by an arbitrary natural taken mod 650), base-accuracy draws
(`uniform(0.60, 0.75)`), region index draws (`randint(0, 3)`), per-node
initial weights and the initial global weights (`randn(...) * 0.1`). -/
structure InitOracle where
  sampleDraw : ℕ → ℕ
  baseAccDraw : ℕ → ℚ
  regionDraw : ℕ → Fin 3
  initWeights : ℕ → Weights
  globalInit : Weights

/-- The `clouds` list of `_init_hospitals`. -/
def clouds : List String := ["AWS", "GCP", "Azure"]

/-- The `regions` dict of `_init_hospitals`. -/
def regionsFor (cloud : String) : List String :=
  if cloud = "AWS" then ["us-east-1", "us-west-2", "eu-central-1"]
  else if cloud = "GCP" then ["us-central1", "europe-west1", "asia-east1"]
  else ["eastus", "westeurope", "southeastasia"]

/-- Model of `FedAvgEngine._init_hospitals`: one node per index `i < n_hospitals`,
with id `"Hospital-" + chr(65+i)`, a sample count in `[150, 800)`, a drawn
base accuracy, a cloud chosen by `i % 3` and a drawn region. -/
def initHospitals (io : InitOracle) (n_hospitals : ℕ) : List HospitalNode :=
  (List.range n_hospitals).map (fun i =>
    let cloud := clouds.getD (i % 3) "AWS"
    { node_id := "Hospital-" ++ (Char.ofNat (65 + i)).toString
      n_samples := 150 + io.sampleDraw i % 650
      base_accuracy := io.baseAccDraw i
      cloud_provider := cloud
      region := (regionsFor cloud).getD (io.regionDraw i) ""
      encryption_active := true
      weights := io.initWeights i })

/-- Model of `FedAvgEngine.__init__(n_hospitals, dp_enabled, dp_sigma, learning_rate,
n_layers)`. The source constructor performs no validation and contains no
`raise`: it stores the configuration as given (any `n_hospitals`, any
`dp_sigma`), initializes the node collection, the global weights, an empty
round history and an empty registry, and returns. -/
def engineInit (io : InitOracle) (n_hospitals : ℕ) (dp_enabled : Bool)
    (dp_sigma learning_rate : ℚ) (n_layers : ℕ) : EngineState :=
  { n_hospitals := n_hospitals
    dp_enabled := dp_enabled
    dp_sigma := dp_sigma
    lr := learning_rate
    n_layers := n_layers
    hospitals := initHospitals io n_hospitals
    global_weights := io.globalInit
    round_history := []
    registry := ModelRegistry.empty }

/-! ### Concrete fixtures used by the witness theorems -/

/-- The all-zero weight tensor. -/
def w0 : Weights := fun _ => 0

/-- A concrete hospital node. -/
def node0 : HospitalNode :=
  { node_id := "Hospital-A", n_samples := 10, base_accuracy := mkRat 7 10,
    weights := w0 }

/-- A concrete oracle: local training and DP noise are the identity, the
accuracy estimator returns fixed values, and the divergence signal dips
below the convergence threshold exactly at rounds 12 and 16. -/
def o0 : Oracle :=
  { localTrain := fun _ _ _ w => w
    dpNoise := fun _ _ w _ => w
    nodeAccEstimate := fun _ _ _ => mkRat 7 10
    nodeAccDraw := fun _ _ => 0
    globalAccEstimate := fun _ _ => 0
    divergence := fun r _ _ => if r = 12 ∨ r = 16 then 0 else 1 }

/-- A concrete engine state: one hospital, DP enabled with `sigma = 1`. -/
def st0 : EngineState :=
  { n_hospitals := 1, dp_enabled := true, dp_sigma := 1, lr := 1,
    n_layers := 8, hospitals := [node0], global_weights := w0,
    round_history := [], registry := ModelRegistry.empty }

/-- A default round/state pair for `Option.getD`. -/
noncomputable def dflt : FLRound × EngineState :=
  (⟨0, 0, 0, [], 0, 0, "", false⟩, st0)

/-- The outcome of round 1 on `st0`. -/
noncomputable def out1 : FLRound × EngineState := (runRound o0 st0 1).getD dflt

/-- The all-one weight tensor. -/
def wOne : Weights := fun _ => 1

/-- State `st0` with DP sigma zero. -/
def stSigma0 : EngineState := { st0 with dp_sigma := 0 }

/-- The outcome of round 1 on `stSigma0`. -/
noncomputable def outSigma0 : FLRound × EngineState :=
  (runRound o0 stSigma0 1).getD dflt

/-- State `st0` with DP disabled. -/
def stNoDp : EngineState := { st0 with dp_enabled := false }

/-- The outcome of round 1 on `stNoDp`. -/
noncomputable def outNoDp : FLRound × EngineState :=
  (runRound o0 stNoDp 1).getD dflt

/-- State `st0` with a prior best version of accuracy `1` in the registry. -/
def stBest : EngineState :=
  { st0 with registry := ModelRegistry.empty.save_version 0 w0 1 }

/-- The outcome of round 1 on `stBest`: the candidate accuracy estimate is
`0`, more than `0.05` below the best accuracy `1`, so rollback applies. -/
noncomputable def outRb : FLRound × EngineState :=
  (runRound o0 stBest 1).getD dflt

/-- The final state of a 20-round simulation on `st0`: the divergence
oracle of `o0` converges at rounds 12 and 16, so the loop records round 12
as converged without stopping and stops early after round 16. -/
noncomputable def sim20 : EngineState := (runSimulation o0 st0 20).getD st0

/-- The candidate of the rollback witness round. -/
def ngRb : Weights := (roundCandidate o0 stBest 1).getD w0

/-- The registry of scenario 4 of the spec: versions with accuracies
`0.70` then `0.60`, saved in that order. -/
def reg70_60 : ModelRegistry :=
  (ModelRegistry.empty.save_version 1 w0 (mkRat 7 10)).save_version 2 w0
    (mkRat 6 10)

/-- A concrete initialization oracle. -/
def io0 : InitOracle :=
  { sampleDraw := fun _ => 0, baseAccDraw := fun _ => 0,
    regionDraw := fun _ => 0, initWeights := fun _ => w0, globalInit := w0 }

end FLEngine

/-! ## Theorems -/

namespace FLEngine

/-- Bridge between the `mkRat` form of the source constant `0.01` and its
division form. -/
lemma mkRat_hundredth : (mkRat 1 100 : ℚ) = 1/100 := by
  norm_num [Rat.mkRat_eq_divInt]

/-- Bridge for the source constant `0.05`. -/
lemma mkRat_twentieth : (mkRat 1 20 : ℚ) = 1/20 := by
  norm_num [Rat.mkRat_eq_divInt]

/-- Bridge for the source constant `delta = 1e-5`. -/
lemma mkRat_delta : (mkRat 1 100000 : ℚ) = 1e-5 := by
  norm_num [Rat.mkRat_eq_divInt]

/-- A successful `runRound` call is `runRoundWith` at the aggregated
candidate and the minimum sample count. -/
lemma runRound_elim (o : Oracle) (st : EngineState) (r : ℕ)
    {p : FLRound × EngineState} (h : runRound o st r = some p) :
    ∃ ng cmin, roundCandidate o st r = some ng ∧
      pyMin (roundCounts st) = some cmin ∧ p = runRoundWith o st r ng cmin := by
  rcases hc : roundCandidate o st r with _ | ng <;>
    rcases hm : pyMin (roundCounts st) with _ | cmin <;>
      rw [runRound, hc, hm] at h <;> cases h
  exact ⟨ng, cmin, rfl, rfl, rfl⟩

/-- C6: for every round executed by `run_round`, the recorded `converged`
flag is true iff the recorded `weight_divergence` is below `0.01` and the
round number is at least `10`; the recorded round number is the executed
one, and no round below `10` is ever marked converged. -/
theorem claim_C6 (o : Oracle) (st : EngineState) (r : ℕ) (res : FLRound)
    (st' : EngineState) (h : runRound o st r = some (res, st')) :
    (res.converged = true ↔ (res.weight_divergence < 1/100 ∧ 10 ≤ res.round_num)) ∧
    res.round_num = r ∧
    (res.round_num < 10 → res.converged = false) := by
  obtain ⟨ng, cmin, -, -, hp⟩ := runRound_elim o st r h
  have hres : res = (runRoundWith o st r ng cmin).1 := congrArg Prod.fst hp
  subst hres
  refine ⟨?_, rfl, ?_⟩
  · simp [runRoundWith, mkRat_hundredth]
  · intro hlt
    simp only [runRoundWith] at hlt
    simp only [runRoundWith, decide_eq_false_iff_not]
    rintro ⟨-, h10⟩
    omega

/-- Witness for C6 at the concrete round `out1`. -/
theorem claim_C6_witness :
    runRound o0 st0 1 = some (out1.1, out1.2) ∧
    ((out1.1.converged = true ↔
        (out1.1.weight_divergence < 1/100 ∧ 10 ≤ out1.1.round_num)) ∧
      out1.1.round_num = 1 ∧
      (out1.1.round_num < 10 → out1.1.converged = false)) :=
  ⟨rfl, claim_C6 o0 st0 1 out1.1 out1.2 rfl⟩

/-- Looking up the just-inserted key returns the just-inserted value. -/
lemma dictGet_dictInsert_self (l : List (ℤ × ModelVersion)) (k : ℤ)
    (v : ModelVersion) : dictGet (dictInsert l k v) k = some v := by
  induction l with
  | nil => simp [dictInsert, dictGet]
  | cons p ps ih =>
    by_cases hp : p.1 = k <;> simp [dictInsert, dictGet, hp, ih]

/-- Inserting at key `k` does not change lookups at other keys. -/
lemma dictGet_dictInsert_ne (l : List (ℤ × ModelVersion)) (k : ℤ)
    (v : ModelVersion) (k' : ℤ) (hne : k' ≠ k) :
    dictGet (dictInsert l k v) k' = dictGet l k' := by
  induction l with
  | nil => simp [dictInsert, dictGet, Ne.symm hne]
  | cons p ps ih =>
    by_cases hp : p.1 = k
    · have h2 : ¬ p.1 = k' := by rw [hp]; exact Ne.symm hne
      simp [dictInsert, dictGet, hp, h2, Ne.symm hne, ih]
    · by_cases hk' : p.1 = k' <;>
        simp [dictInsert, dictGet, hp, hk', hne, Ne.symm hne, ih]

/-- C1: rollback bound. Whenever a prior best version `b` exists, the
recorded accuracy of an executed round stays within `0.05` of the best
accuracy; and whenever the candidate's estimated accuracy falls more than
`0.05` below the best, the round records the best version's accuracy, the
`"Safe Rollback Applied"` status tag (the source's concrete string for the
spec's `rollback_applied` tag), the engine's global weights become the best
version's weights, and the round's registry entry stores the best version's
weights and accuracy. -/
theorem claim_C1 (o : Oracle) (st : EngineState) (r : ℕ) (res : FLRound)
    (st' : EngineState) (b : ModelVersion)
    (h : runRound o st r = some (res, st'))
    (hb : st.registry.get_best = some b) :
    b.accuracy - 1/20 ≤ res.global_accuracy ∧
    (∀ ng, roundCandidate o st r = some ng →
      o.globalAccEstimate r ng < b.accuracy - 1/20 →
      res.global_accuracy = b.accuracy ∧
      res.secure_agg_status = "Safe Rollback Applied" ∧
      st'.global_weights = b.weights ∧
      dictGet st'.registry.versions (r : ℤ) =
        some ⟨(r : ℤ), b.weights, b.accuracy⟩) := by
  obtain ⟨ng0, cmin, hng0, -, hp⟩ := runRound_elim o st r h
  have hres : res = (runRoundWith o st r ng0 cmin).1 := congrArg Prod.fst hp
  have hst' : st' = (runRoundWith o st r ng0 cmin).2 := congrArg Prod.snd hp
  subst hres; subst hst'
  constructor
  · simp only [runRoundWith, hb, mkRat_twentieth]
    split_ifs with hc
    · simp only
      linarith
    · simp only
      linarith [not_lt.mp hc]
  · intro ng hng htr
    rw [hng0] at hng
    injection hng with hng
    subst hng
    have hc : o.globalAccEstimate r ng0 < b.accuracy - mkRat 1 20 := by
      rw [mkRat_twentieth]; exact htr
    refine ⟨?_, ?_, ?_, ?_⟩
    · simp [runRoundWith, hb, if_pos hc]
    · simp [runRoundWith, hb, if_pos hc]
    · simp [runRoundWith, hb, if_pos hc]
    · simp [runRoundWith, hb, if_pos hc, ModelRegistry.save_version,
        dictGet_dictInsert_self]

/-- The rollback trigger holds at the witness round: the candidate estimate
`0` is more than `0.05` below the best accuracy `1`. -/
lemma rbTrigger :
    o0.globalAccEstimate 1 ngRb < (ModelVersion.mk 0 w0 1).accuracy - 1/20 := by
  show (0 : ℚ) < 1 - 1/20
  norm_num

/-- Witness for C1 at a concrete round whose candidate accuracy estimate
`0` regresses from the registry best `1`. -/
theorem claim_C1_witness :
    runRound o0 stBest 1 = some (outRb.1, outRb.2) ∧
    stBest.registry.get_best = some ⟨0, w0, 1⟩ ∧
    roundCandidate o0 stBest 1 = some ngRb ∧
    ((ModelVersion.mk 0 w0 1).accuracy - 1/20 ≤ outRb.1.global_accuracy ∧
      (outRb.1.global_accuracy = (ModelVersion.mk 0 w0 1).accuracy ∧
        outRb.1.secure_agg_status = "Safe Rollback Applied" ∧
        outRb.2.global_weights = (ModelVersion.mk 0 w0 1).weights ∧
        dictGet outRb.2.registry.versions 1 = some ⟨1, w0, 1⟩)) :=
  ⟨rfl, rfl, rfl,
    (claim_C1 o0 stBest 1 outRb.1 outRb.2 ⟨0, w0, 1⟩ rfl rfl).1,
    (claim_C1 o0 stBest 1 outRb.1 outRb.2 ⟨0, w0, 1⟩ rfl rfl).2 ngRb rfl rbTrigger⟩

/-- C2: the recorded `privacy_epsilon` of every executed round is the
analytic bound `sqrt(2·ln(1.25/delta))/sigma` with `delta = 1e-5` when DP
is enabled and `sigma > 0`, `+∞` (the top of `EReal`, the model of
`float('inf')`) when DP is enabled and `sigma = 0`, and `0.0` when DP is
disabled — in which case the round additionally does not depend on the
noise-adding primitive at all. -/
theorem claim_C2 (o : Oracle) (st : EngineState) (r : ℕ) (res : FLRound)
    (st' : EngineState) (h : runRound o st r = some (res, st')) :
    (st.dp_enabled = true → 0 < st.dp_sigma →
      res.privacy_epsilon =
        ((Real.sqrt (2 * Real.log (1.25 / ((1e-5 : ℚ) : ℝ))) /
          (st.dp_sigma : ℝ) : ℝ) : EReal)) ∧
    (st.dp_enabled = true → st.dp_sigma = 0 → res.privacy_epsilon = ⊤) ∧
    (st.dp_enabled = false →
      res.privacy_epsilon = 0 ∧
      ∀ f, runRound { o with dpNoise := f } st r = runRound o st r) := by
  obtain ⟨ng, cmin, -, -, hp⟩ := runRound_elim o st r h
  have hres : res = (runRoundWith o st r ng cmin).1 := congrArg Prod.fst hp
  subst hres
  refine ⟨?_, ?_, ?_⟩
  · intro hdp hs
    simp only [runRoundWith, hdp, if_true, computeEpsilon, mkRat_delta]
    rw [if_neg (ne_of_gt hs)]
  · intro hdp hs
    simp [runRoundWith, hdp, computeEpsilon, hs]
  · intro hdp
    constructor
    · simp [runRoundWith, hdp]
    · intro f
      simp [runRound, runRoundWith, roundCandidate, roundLocals,
        roundNodeAccs, localUpdate, hdp]

/-- Witness for C2: the three cases at concrete rounds (`sigma = 1`,
`sigma = 0`, DP disabled), the last with a concrete alternative
noise function. -/
theorem claim_C2_witness :
    (runRound o0 st0 1 = some (out1.1, out1.2) ∧ 0 < st0.dp_sigma ∧
      out1.1.privacy_epsilon =
        ((Real.sqrt (2 * Real.log (1.25 / ((1e-5 : ℚ) : ℝ))) /
          (st0.dp_sigma : ℝ) : ℝ) : EReal)) ∧
    (runRound o0 stSigma0 1 = some (outSigma0.1, outSigma0.2) ∧
      outSigma0.1.privacy_epsilon = ⊤) ∧
    (runRound o0 stNoDp 1 = some (outNoDp.1, outNoDp.2) ∧
      outNoDp.1.privacy_epsilon = 0 ∧
      runRound { o0 with dpNoise := fun _ _ w _ => fun i => w i + 1 } stNoDp 1 =
        runRound o0 stNoDp 1) :=
  ⟨⟨rfl, by decide,
      (claim_C2 o0 st0 1 out1.1 out1.2 rfl).1 rfl (by decide)⟩,
    ⟨rfl, (claim_C2 o0 stSigma0 1 outSigma0.1 outSigma0.2 rfl).2.1 rfl rfl⟩,
    ⟨rfl, ((claim_C2 o0 stNoDp 1 outNoDp.1 outNoDp.2 rfl).2.2 rfl).1,
      ((claim_C2 o0 stNoDp 1 outNoDp.1 outNoDp.2 rfl).2.2 rfl).2 _⟩⟩

/-- Summing `k ↦ k / N` over a list of naturals gives the list's sum over
`N`. -/
lemma sum_map_div_nat (counts : List ℕ) (N : ℚ) :
    (counts.map (fun k : ℕ => (k : ℚ) / N)).sum = ((counts.sum : ℕ) : ℚ) / N := by
  induction counts with
  | nil => simp
  | cons c cs ih =>
    rw [List.map_cons, List.sum_cons, ih, List.sum_cons]
    push_cast
    rw [add_div]

/-- The zipped weighted sum of `_fedavg_aggregate` as an indexed finite
sum, for equal-length inputs. -/
lemma zipsum_eq_finsum (i : ℕ) (N : ℚ) :
    ∀ (lw : List Weights) (counts : List ℕ), lw.length = counts.length →
      ((lw.zip counts).map (fun q => ((q.2 : ℚ) / N) * q.1 i)).sum =
        ∑ k ∈ Finset.range lw.length,
          ((counts.getD k 0 : ℚ) / N) * (lw.getD k w0) i := by
  intro lw
  induction lw with
  | nil => intro counts _; simp
  | cons w ws ih =>
    intro counts hlen
    cases counts with
    | nil => cases hlen
    | cons c cs =>
      have hlen' : ws.length = cs.length := by simpa using hlen
      simp only [List.zip_cons_cons, List.map_cons, List.sum_cons, ih cs hlen',
        List.length_cons]
      rw [Finset.sum_range_succ']
      simp [List.getD_cons_succ, List.getD_cons_zero, add_comm]

/-- C5: aggregating two nodes with equal sample counts yields the exact
unweighted mean `(W_a + W_b) / 2`, and the FedAvg weighting coefficients
`n_k / N` sum to exactly `1` (so in particular within tolerance `1e-9`)
whenever the total sample count is positive. -/
theorem claim_C5 :
    (∀ (Wa Wb : Weights) (n : ℕ), 0 < n →
      fedavgAggregate [Wa, Wb] [n, n] =
        some (fun i => (Wa i + Wb i) / 2)) ∧
    (∀ counts : List ℕ, 0 < counts.sum →
      (counts.map (fun k : ℕ => (k : ℚ) / (counts.sum : ℚ))).sum = 1) := by
  constructor
  · intro Wa Wb n hn
    have hn' : (n : ℚ) ≠ 0 := Nat.cast_ne_zero.mpr hn.ne'
    have htot : ¬ (([n, n] : List ℕ).sum = 0) := by simp; omega
    simp only [fedavgAggregate, List.zip_cons_cons, List.zip_nil_left,
      List.zip_nil_right]
    rw [if_neg htot]
    congr 1
    funext i
    have : (([n, n] : List ℕ).sum : ℚ) = 2 * n := by push_cast; simp; ring
    simp only [List.map_cons, List.map_nil, List.sum_cons, List.sum_nil, this]
    field_simp
    ring
  · intro counts hsum
    have hN : ((counts.sum : ℕ) : ℚ) ≠ 0 := Nat.cast_ne_zero.mpr hsum.ne'
    rw [sum_map_div_nat, div_self hN]

/-- Witness for C5: equal-count aggregation of the all-zero and all-one
tensors with `n = 3`, and the weighting of counts `[3, 5]`. -/
theorem claim_C5_witness :
    ((0 : ℕ) < 3 ∧
      fedavgAggregate [w0, wOne] [3, 3] =
        some (fun i => (w0 i + wOne i) / 2)) ∧
    ((0 : ℕ) < ([3, 5] : List ℕ).sum ∧
      (([3, 5] : List ℕ).map
        (fun k : ℕ => (k : ℚ) / ((([3, 5] : List ℕ).sum : ℕ) : ℚ))).sum = 1) :=
  ⟨⟨by decide, claim_C5.1 w0 wOne 3 (by decide)⟩,
    ⟨by decide, claim_C5.2 [3, 5] (by decide)⟩⟩

/-- C3 counterexample: inputs of mismatched lengths (one weight tensor,
two sample counts) do **not** make `_fedavg_aggregate` fail — Python's
`zip` silently truncates and a result is returned. -/
theorem claim_C3_counterexample :
    ([w0] : List Weights).length = 1 ∧ ([1, 1] : List ℕ).length = 2 ∧
      (fedavgAggregate [w0] [1, 1]).isSome = true :=
  ⟨rfl, rfl, rfl⟩

/-- C3 (amended): `_fedavg_aggregate` fails on an empty weight list (and,
within the engine, when the total sample count is zero); on **any**
non-empty weight list with positive total count it returns a result — in
particular mismatched-length inputs are silently truncated rather than
rejected — and on non-empty, equal-length inputs with positive total `N`
the result is exactly `W' = Σ_k (n_k / N) · W_k`. -/
theorem claim_C3 :
    (∀ counts : List ℕ, fedavgAggregate [] counts = none) ∧
    (∀ (lw : List Weights) (counts : List ℕ), lw ≠ [] → 0 < counts.sum →
      (fedavgAggregate lw counts).isSome = true) ∧
    (∀ (lw : List Weights) (counts : List ℕ), lw ≠ [] →
      lw.length = counts.length → 0 < counts.sum →
      fedavgAggregate lw counts =
        some (fun i => ∑ k ∈ Finset.range lw.length,
          ((counts.getD k 0 : ℚ) / (counts.sum : ℚ)) * (lw.getD k w0) i)) := by
  refine ⟨fun _ => rfl, ?_, ?_⟩
  · rintro (_ | ⟨w, ws⟩) counts hne hsum
    · exact absurd rfl hne
    · cases counts with
      | nil => simp at hsum
      | cons c cs =>
        simp only [fedavgAggregate, List.zip_cons_cons]
        rw [if_neg (by omega)]
        rfl
  · rintro (_ | ⟨w, ws⟩) counts hne hlen hsum
    · exact absurd rfl hne
    · cases counts with
      | nil => simp at hsum
      | cons c cs =>
        simp only [fedavgAggregate, List.zip_cons_cons]
        rw [if_neg (by omega)]
        congr 1
        funext i
        rw [← List.zip_cons_cons]
        exact zipsum_eq_finsum i _ (w :: ws) (c :: cs) hlen

/-- Witness for C3 (amended): the empty case, a mismatched non-failing
case, and an exact two-node aggregation. -/
theorem claim_C3_witness :
    fedavgAggregate [] [2] = none ∧
    (([w0] : List Weights) ≠ [] ∧ 0 < ([0, 3] : List ℕ).sum ∧
      (fedavgAggregate [w0] [0, 3]).isSome = true) ∧
    (([w0, wOne] : List Weights) ≠ [] ∧
      ([w0, wOne] : List Weights).length = ([1, 2] : List ℕ).length ∧
      0 < ([1, 2] : List ℕ).sum ∧
      fedavgAggregate [w0, wOne] [1, 2] =
        some (fun i => ∑ k ∈ Finset.range ([w0, wOne] : List Weights).length,
          ((([1, 2] : List ℕ).getD k 0 : ℚ) / ((([1, 2] : List ℕ).sum : ℕ) : ℚ)) *
            (([w0, wOne] : List Weights).getD k w0) i)) :=
  ⟨claim_C3.1 [2],
    ⟨by simp, by decide, claim_C3.2.1 [w0] [0, 3] (by simp) (by decide)⟩,
    ⟨by simp, rfl, by decide,
      claim_C3.2.2 [w0, wOne] [1, 2] (by simp) rfl (by decide)⟩⟩

/-- C9: the computed epsilon does not depend on the sample-count argument:
`_compute_epsilon(sigma, n, delta)` returns the same value for every `n`,
because the source never reads that parameter. -/
theorem claim_C9 (sigma : ℚ) (delta : ℚ) (n1 n2 : ℕ) :
    computeEpsilon sigma n1 delta = computeEpsilon sigma n2 delta := rfl

/-- C4 counterexample: constructing an engine with an empty node set and a
negative sigma raises nothing — the constructor stores the configuration
as given and returns a state with empty history; the empty node set only
fails once a round executes. (The source `__init__` contains no validation
and no `raise`; no `ConfigurationError` type exists in the repository.) -/
theorem claim_C4_counterexample :
    (engineInit io0 0 true (-1) 1 8).hospitals = [] ∧
    (engineInit io0 0 true (-1) 1 8).dp_sigma = -1 ∧
    (engineInit io0 0 true (-1) 1 8).round_history = [] ∧
    runRound o0 (engineInit io0 0 true (-1) 1 8) 1 = none :=
  ⟨rfl, rfl, rfl, rfl⟩

/-- C4 (amended): engine construction performs no validation and always
succeeds — any node count (including zero) and any sigma (including
negative values) are stored as given, with an empty round history; the node
set is empty iff `n_hospitals = 0`, and in that case the failure surfaces
only when a round executes (the aggregation step fails on the empty list),
not at construction. -/
theorem claim_C4 (io : InitOracle) (n : ℕ) (dp : Bool) (sigma lr : ℚ)
    (L : ℕ) :
    (engineInit io n dp sigma lr L).round_history = [] ∧
    (engineInit io n dp sigma lr L).dp_sigma = sigma ∧
    ((engineInit io n dp sigma lr L).hospitals = [] ↔ n = 0) ∧
    (n = 0 → ∀ (o : Oracle) (r : ℕ),
      runRound o (engineInit io n dp sigma lr L) r = none) := by
  refine ⟨rfl, rfl, ?_, ?_⟩
  · simp [engineInit, initHospitals]
  · rintro rfl o r
    rfl

/-- Witness for C4 at a concrete degenerate configuration. -/
theorem claim_C4_witness :
    (engineInit io0 0 false (-2) 1 8).round_history = [] ∧
    (engineInit io0 0 false (-2) 1 8).dp_sigma = -2 ∧
    (engineInit io0 0 false (-2) 1 8).hospitals = [] ∧
    runRound o0 (engineInit io0 0 false (-2) 1 8) 3 = none :=
  ⟨(claim_C4 io0 0 false (-2) 1 8).1,
    (claim_C4 io0 0 false (-2) 1 8).2.1,
    ((claim_C4 io0 0 false (-2) 1 8).2.2.1).mpr rfl,
    (claim_C4 io0 0 false (-2) 1 8).2.2.2 rfl o0 3⟩

/-- C8: the registry best-pointer rule. On an empty registry `get_best` and
`get_latest` return `None`; the first saved version always becomes best;
for a save of a fresh version id on a non-empty registry the best pointer
moves to the new id iff the new accuracy strictly exceeds the recorded best
accuracy (and otherwise stays); and the spec's concrete scenario: after
accuracies `[0.70, 0.60]` the first version is best, a further `0.50` does
not move the pointer and a further `0.80` does. -/
theorem claim_C8 :
    (ModelRegistry.empty.get_best = none ∧
      ModelRegistry.empty.get_latest = none) ∧
    (∀ (id : ℤ) (w : Weights) (acc : ℚ),
      (ModelRegistry.empty.save_version id w acc).best_version_id = id) ∧
    (∀ (reg : ModelRegistry) (id : ℤ) (w : Weights) (acc : ℚ)
      (bv : ModelVersion),
      reg.best_version_id ≠ -1 →
      dictGet reg.versions reg.best_version_id = some bv →
      reg.best_version_id ≠ id →
      (((reg.save_version id w acc).best_version_id = id ↔
          bv.accuracy < acc) ∧
        (¬ bv.accuracy < acc →
          (reg.save_version id w acc).best_version_id =
            reg.best_version_id))) ∧
    (reg70_60.get_best = some ⟨1, w0, mkRat 7 10⟩ ∧
      (reg70_60.save_version 3 w0 (mkRat 5 10)).best_version_id = 1 ∧
      (reg70_60.save_version 3 w0 (mkRat 8 10)).best_version_id = 3) := by
  refine ⟨⟨rfl, rfl⟩, ?_, ?_, ⟨rfl, rfl, rfl⟩⟩
  · intro id w acc
    rfl
  · intro reg id w acc bv hbne hbv hid_ne
    have hrw : dictGet (dictInsert reg.versions id ⟨id, w, acc⟩)
        reg.best_version_id = some bv := by
      rw [dictGet_dictInsert_ne _ _ _ _ hid_ne]
      exact hbv
    have key : (reg.save_version id w acc).best_version_id =
        if bv.accuracy < acc then id else reg.best_version_id := by
      simp [ModelRegistry.save_version, hrw, hbne]
    rw [key]
    constructor
    · constructor
      · intro hbid
        by_contra hacc
        rw [if_neg hacc] at hbid
        exact hid_ne hbid
      · intro hacc
        rw [if_pos hacc]
    · intro hacc
      rw [if_neg hacc]

/-- Witness for C8: a first save, a fresh-id save that beats the best, and
a fresh-id save that does not. -/
theorem claim_C8_witness :
    (ModelRegistry.empty.save_version 5 w0 2).best_version_id = 5 ∧
    ((1 : ℤ) ≠ -1 ∧
      dictGet reg70_60.versions 1 = some ⟨1, w0, mkRat 7 10⟩ ∧
      reg70_60.best_version_id ≠ 4 ∧
      (reg70_60.save_version 4 w0 2).best_version_id = 4 ∧
      (reg70_60.save_version 4 w0 (mkRat 1 2)).best_version_id = 1) :=
  ⟨claim_C8.2.1 5 w0 2,
    by decide, rfl, by decide,
    ((claim_C8.2.2.1 reg70_60 4 w0 2 ⟨1, w0, mkRat 7 10⟩ (by decide) rfl
        (by decide)).1).mpr (by decide),
    (claim_C8.2.2.1 reg70_60 4 w0 (mkRat 1 2) ⟨1, w0, mkRat 7 10⟩ (by decide)
        rfl (by decide)).2 (by decide)⟩

/-- A successful round has the executed round number and appends exactly
its own record to the history. -/
lemma runRound_next (o : Oracle) (st : EngineState) (r : ℕ) {res : FLRound}
    {st' : EngineState} (h : runRound o st r = some (res, st')) :
    res.round_num = r ∧ st'.round_history = st.round_history ++ [res] := by
  obtain ⟨ng, cmin, -, -, hp⟩ := runRound_elim o st r h
  have h1 : res = (runRoundWith o st r ng cmin).1 := congrArg Prod.fst hp
  have h2 : st' = (runRoundWith o st r ng cmin).2 := congrArg Prod.snd hp
  subst h1; subst h2
  exact ⟨rfl, rfl⟩

/-- Structure of a terminating simulation loop: starting at round `r` with
`fuel` iterations left, the rounds `t` appended to the history are numbered
consecutively from `r`, at most `fuel` of them execute, no round before the
last one satisfies the early-stop condition (`converged` strictly after
round 15), and if fewer than `fuel` rounds executed then the last round
satisfies it. -/
lemma simLoop_spec (o : Oracle) :
    ∀ (fuel r : ℕ) (st st' : EngineState), simLoop o st r fuel = some st' →
    ∃ t : List FLRound,
      st'.round_history = st.round_history ++ t ∧
      t.length ≤ fuel ∧
      t.map FLRound.round_num = List.range' r t.length ∧
      (∀ res ∈ t.dropLast, ¬(res.converged = true ∧ 15 < res.round_num)) ∧
      (t.length < fuel → ∃ last, t.getLast? = some last ∧
        last.converged = true ∧ 15 < last.round_num) := by
  intro fuel
  induction fuel with
  | zero =>
    intro r st st' h
    simp only [simLoop] at h
    cases h
    exact ⟨[], by simp, by simp, by simp, by simp, by omega⟩
  | succ f ih =>
    intro r st st' h
    simp only [simLoop] at h
    rcases hr : runRound o st r with _ | ⟨res, st1⟩
    · simp only [hr] at h
      cases h
    · simp only [hr] at h
      obtain ⟨hnum, hhist⟩ := runRound_next o st r hr
      by_cases hc : res.converged = true ∧ 15 < r
      · rw [if_pos hc] at h
        cases h
        refine ⟨[res], by simpa using hhist, by simp, by simp [hnum], by simp, ?_⟩
        intro _
        exact ⟨res, rfl, hc.1, by rw [hnum]; exact hc.2⟩
      · rw [if_neg hc] at h
        obtain ⟨t, ht1, ht2, ht3, ht4, ht5⟩ := ih (r + 1) st1 st' h
        refine ⟨res :: t, ?_, by simp; omega, ?_, ?_, ?_⟩
        · rw [ht1, hhist]
          simp
        · simp only [List.map_cons, List.length_cons, hnum, ht3,
            List.range'_succ]
        · intro q hq
          cases t with
          | nil => simp at hq
          | cons b bs =>
            rw [List.dropLast_cons₂] at hq
            rcases List.mem_cons.mp hq with hq | hq
            · subst hq
              rintro ⟨hcc, hgt⟩
              exact hc ⟨hcc, by rwa [hnum] at hgt⟩
            · exact ht4 q hq
        · intro hlen
          have hlt : t.length < f := by simpa using hlen
          obtain ⟨last, hl1, hl2, hl3⟩ := ht5 hlt
          cases t with
          | nil => cases hl1
          | cons b bs =>
            exact ⟨last, by rw [List.getLast?_cons_cons]; exact hl1, hl2, hl3⟩

/-- C7: early-stop policy of `run_simulation`. At most the configured
number of rounds executes; no round except possibly the final one is both
converged and strictly after round 15 (a round satisfying that condition
terminates the loop before the next round starts); and the loop ends
before exhausting the budget only when the final recorded round is
converged strictly after round 15 — so a round converged at or before 15
is recorded but never stops the loop. -/
theorem claim_C7 (o : Oracle) (st : EngineState) (n : ℕ) (st' : EngineState)
    (h : runSimulation o st n = some st') :
    st'.round_history.length ≤ n ∧
    (∀ res ∈ st'.round_history.dropLast,
      ¬(res.converged = true ∧ 15 < res.round_num)) ∧
    (st'.round_history.length < n →
      ∃ last, st'.round_history.getLast? = some last ∧
        last.converged = true ∧ 15 < last.round_num) := by
  obtain ⟨t, ht1, ht2, -, ht4, ht5⟩ := simLoop_spec o n 1 _ st' h
  have ht1' : st'.round_history = t := by simpa using ht1
  rw [ht1']
  exact ⟨ht2, ht4, ht5⟩

/-- Witness for C7: a concrete 20-round budget where the divergence oracle
converges at rounds 12 and 16; the run records 16 rounds (round 12's
convergence does not stop it, round 16's does). -/
theorem claim_C7_witness :
    runSimulation o0 st0 20 = some sim20 ∧
    sim20.round_history.length = 16 ∧
    sim20.round_history.length ≤ 20 :=
  ⟨rfl, rfl, (claim_C7 o0 st0 20 sim20 rfl).1⟩

/-- C10: every `run_simulation(n_rounds)` call first discards the
accumulated round history — the result is independent of any prior
history — and afterwards the history holds exactly the rounds produced by
this call, numbered consecutively from 1. -/
theorem claim_C10 (o : Oracle) (st : EngineState) (n : ℕ)
    (st' : EngineState) (h : runSimulation o st n = some st') :
    st'.round_history.map FLRound.round_num =
      List.range' 1 st'.round_history.length ∧
    (∀ hist, runSimulation o { st with round_history := hist } n =
      runSimulation o st n) := by
  constructor
  · obtain ⟨t, ht1, -, ht3, -, -⟩ := simLoop_spec o n 1 _ st' h
    have ht1' : st'.round_history = t := by simpa using ht1
    rw [ht1']
    exact ht3
  · intro hist
    rfl

/-- Witness for C10: after a 20-round call on a state with a non-empty
prior history, the history is exactly rounds 1..16. -/
theorem claim_C10_witness :
    runSimulation o0 st0 20 = some sim20 ∧
    sim20.round_history.map FLRound.round_num =
      List.range' 1 sim20.round_history.length ∧
    runSimulation o0 { st0 with round_history := [dflt.1] } 20 =
      runSimulation o0 st0 20 :=
  ⟨rfl, (claim_C10 o0 st0 20 sim20 rfl).1,
    (claim_C10 o0 st0 20 sim20 rfl).2 [dflt.1]⟩

end FLEngine
